import Mathlib

/-!
Shallow embedding of the Loro-Nostr provider (`LoroNostrProvider`), its key
store (`importKeys`) and its base64 codec, together with proofs about the
claims of the specification.  Pure functions of the source are translated as
Lean functions; the stateful provider methods are translated as functions on
explicit state records that additionally return the list of observable
actions (document imports, event emissions, publishes) the method performs.
External collaborators (the Loro CRDT document, `nostr-tools` signing and
NIP-19 decoding, JSON parsing) are black boxes per the specification and are
modelled as function parameters or as already-decoded structured data.
-/

namespace LoroNostr

/-! ## Base64 codec (`bytesToBase64` / `base64ToBytes`)

`bytesToBase64` builds a binary string whose i-th character code is the i-th
byte and applies `btoa`; `base64ToBytes` applies `atob` and reads the
character codes back.  We model the binary string by its list of character
codes (natural numbers below 256), so `bytesToBase64` is exactly the base64
encoder `btoaEncode` and `base64ToBytes` is exactly the decoder
`atobDecode`. -/

/-- The base64 alphabet: index 0..25 ↦ A..Z, 26..51 ↦ a..z, 52..61 ↦ 0..9,
62 ↦ +, 63 ↦ /. -/
def b64CharOf (n : Nat) : Char :=
  if n < 26 then Char.ofNat (65 + n)
  else if n < 52 then Char.ofNat (97 + (n - 26))
  else if n < 62 then Char.ofNat (48 + (n - 52))
  else if n = 62 then '+'
  else '/'

/-- Inverse base64 alphabet lookup, as performed by `atob`. -/
def b64IndexOf (c : Char) : Nat :=
  if 65 ≤ c.toNat ∧ c.toNat ≤ 90 then c.toNat - 65
  else if 97 ≤ c.toNat ∧ c.toNat ≤ 122 then c.toNat - 97 + 26
  else if 48 ≤ c.toNat ∧ c.toNat ≤ 57 then c.toNat - 48 + 52
  else if c = '+' then 62
  else if c = '/' then 63
  else 0

/-- `btoa` on a binary string, given as its list of character codes:
groups of three 8-bit codes become four base64 characters, with `=`
padding for a trailing group of one or two. -/
def btoaEncode : List Nat → List Char
  | [] => []
  | [a] => [b64CharOf (a / 4), b64CharOf (a % 4 * 16), '=', '=']
  | [a, b] =>
      [b64CharOf (a / 4), b64CharOf (a % 4 * 16 + b / 16),
       b64CharOf (b % 16 * 4), '=']
  | a :: b :: c :: rest =>
      b64CharOf (a / 4) :: b64CharOf (a % 4 * 16 + b / 16) ::
      b64CharOf (b % 16 * 4 + c / 64) :: b64CharOf (c % 64) :: btoaEncode rest

/-- `atob`, producing the character codes of the decoded binary string:
groups of four base64 characters become three 8-bit codes, with `=`
padding marking a final group of one or two codes. -/
def atobDecode : List Char → List Nat
  | c1 :: c2 :: c3 :: c4 :: rest =>
      let i1 := b64IndexOf c1
      let i2 := b64IndexOf c2
      if c3 = '=' then [i1 * 4 + i2 / 16]
      else
        let i3 := b64IndexOf c3
        if c4 = '=' then [i1 * 4 + i2 / 16, i2 % 16 * 16 + i3 / 4]
        else
          (i1 * 4 + i2 / 16) :: (i2 % 16 * 16 + i3 / 4) ::
          (i3 % 4 * 64 + b64IndexOf c4) :: atobDecode rest
  | _ => []

/-- Source `bytesToBase64`: bytes → binary string (character code i = byte i)
→ `btoa`. -/
def bytesToBase64 (bytes : List Nat) : List Char :=
  btoaEncode bytes

/-- Source `base64ToBytes`: `atob` → character codes of the decoded binary
string. -/
def base64ToBytes (s : List Char) : List Nat :=
  atobDecode s

/-! ## Data model of events and envelopes -/

/-- The decoded `SyncMessage` envelope carried in an event's JSON content. -/
structure SyncMessage where
  type : String
  docId : String
  data : List Char
  timestamp : Nat
deriving DecidableEq

/-- Nostr event kinds used by the provider (`NOSTR_KINDS`); the numeric tags
are opaque to the logic, only their distinctness matters. -/
inductive NKind where
  | crdtUpdate
  | documentSnapshot
  | presence
  | other
deriving DecidableEq

/-- A received (signed) Nostr event.  `content` is the result of
`JSON.parse` on the content field: `none` models malformed JSON (the parse
throws and the handler's catch skips the event). -/
structure NEvent where
  kind : NKind
  pubkey : String
  createdAt : Nat
  content : Option SyncMessage
deriving DecidableEq

/-- Observable actions of the dispatch path. -/
inductive Action where
  | importDoc (bytes : List Nat)
  | ingestPresence (pubkey : String)
deriving DecidableEq

/-! ## Inbound dispatch (`applyUpdate`, `applySnapshot`, `handleEvent`,
`fetchHistory`)

Each handler is translated as a function returning the list of observable
actions it performs.  The bound document id `docId` is in scope for every
handler (it is `this.docId` in the source), whether or not the source
consults it. -/

/-- Source `applyUpdate`: parse the event content, base64-decode the payload
and import it into the document.  A parse failure is caught and the event is
skipped. -/
def applyUpdateActions (docId : String) (e : NEvent) : List Action :=
  match e.content with
  | some message => [Action.importDoc (base64ToBytes message.data)]
  | none => []

/-- Source `applySnapshot`: parse the event content, base64-decode the
payload and import it into the document.  A parse failure is caught and the
event is skipped. -/
def applySnapshotActions (docId : String) (e : NEvent) : List Action :=
  match e.content with
  | some message => [Action.importDoc (base64ToBytes message.data)]
  | none => []

/-- Source `handlePresence`: record the participant keyed by the event's
pubkey. -/
def handlePresenceActions (e : NEvent) : List Action :=
  [Action.ingestPresence e.pubkey]

/-- Source `handleEvent` (live-subscription dispatch): skip events signed by
our own public key, then dispatch by kind. -/
def handleEventActions (selfPubkey docId : String) (e : NEvent) : List Action :=
  if e.pubkey = selfPubkey then []
  else
    match e.kind with
    | NKind.crdtUpdate => applyUpdateActions docId e
    | NKind.documentSnapshot => applySnapshotActions docId e
    | NKind.presence => handlePresenceActions e
    | NKind.other => []

/-! ## Stable sort by `created_at`

`fetchHistory` sorts the merged query results with
`events.sort((a, b) => a.created_at - b.created_at)`; JavaScript's sort is a
stable sort by the comparator, modelled here as a stable insertion sort on
the `created_at` key. -/

/-- Insert an event after every already-placed event whose `created_at` is
not larger (stability: later-arriving equal keys go last). -/
def insertByCreatedAt (e : NEvent) : List NEvent → List NEvent
  | [] => [e]
  | x :: xs =>
      if x.createdAt ≤ e.createdAt then x :: insertByCreatedAt e xs
      else e :: x :: xs

/-- Stable sort of events by ascending `created_at`. -/
def sortByCreatedAt (l : List NEvent) : List NEvent :=
  l.foldl (fun acc e => insertByCreatedAt e acc) []

/-- Source `fetchHistory` (history reconciliation): merge the snapshot query
result and the update query result, sort by `created_at` ascending, apply
the snapshot first when one is present, then apply every update event in
sorted order.  No signer check is performed on this path. -/
def fetchHistoryActions (selfPubkey docId : String)
    (snapshotEvents updateEvents : List NEvent) : List Action :=
  let events := sortByCreatedAt (snapshotEvents ++ updateEvents)
  let snapActs :=
    match events.find? (fun e => e.kind == NKind.documentSnapshot) with
    | some s => applySnapshotActions docId s
    | none => []
  snapActs ++ (events.filter (fun e => e.kind == NKind.crdtUpdate)).flatMap
    (applyUpdateActions docId)

/-! ## Provider mutable state and the batching / flush / disconnect paths

The provider's fields relevant to the claims.  The document is an external
black box: `flushUpdates` consults it only through
`doc.export({mode: 'update', from?})` and `doc.version()`, modelled by a
`DocModel` record.  The batch timer handle is modelled as `Option Nat`
carrying a timer identity, with `nextTimerId` counting how many timers have
ever been created (`setTimeout` calls). -/

/-- Black-box view of the Loro document used by `flushUpdates`:
`exportFrom v` is `doc.export({mode: 'update', from: v})` (or a full
update export when `v = none`), `version` is `doc.version()`. -/
structure DocModel (V : Type) where
  exportFrom : Option V → List Nat
  version : V

/-- Provider state fields touched by the batching and disconnect paths. -/
structure ProviderState (V : Type) where
  pendingUpdates : List (List Nat)
  batchTimer : Option Nat
  nextTimerId : Nat
  lastExportedVersion : Option V
  subscriptionId : Option String
  isConnected : Bool

/-- Source `queueUpdate`: push the raw update onto the pending buffer and
arm the batch timer only if none is armed; an armed timer is left alone. -/
def queueUpdate {V : Type} (update : List Nat) (st : ProviderState V) :
    ProviderState V :=
  let st1 := { st with pendingUpdates := st.pendingUpdates ++ [update] }
  match st1.batchTimer with
  | some _ => st1
  | none =>
      { st1 with batchTimer := some st1.nextTimerId,
                 nextTimerId := st1.nextTimerId + 1 }

/-- A sequence of `queueUpdate` calls (enqueues within one window, before
any timer fires). -/
def queueUpdates {V : Type} (updates : List (List Nat))
    (st : ProviderState V) : ProviderState V :=
  updates.foldl (fun s u => queueUpdate u s) st

/-- Outbound observable actions of the flush / publish path. -/
inductive PubAction where
  | publishUpdate (bytes : List Nat)
deriving DecidableEq

/-- Source `flushUpdates`: return early when nothing is pending; otherwise
clear the timer handle, export the delta since `lastExportedVersion`,
advance the version marker, clear the pending buffer, and publish only when
the exported delta is non-empty. -/
def flushUpdates {V : Type} (doc : DocModel V) (st : ProviderState V) :
    ProviderState V × List PubAction :=
  if st.pendingUpdates = [] then (st, [])
  else
    let update := doc.exportFrom st.lastExportedVersion
    let st1 := { st with batchTimer := none,
                         lastExportedVersion := some doc.version,
                         pendingUpdates := [] }
    if update.length > 0 then (st1, [PubAction.publishUpdate update])
    else (st1, [])

/-! ## Publish outcome aggregation (`publishUpdate`)

`publishUpdate` signs the event and awaits `Promise.allSettled` over the
per-relay publish promises; each settled entry is `fulfilled` or
`rejected`.  Inside the `try` block it throws when no entry is fulfilled;
the `catch` swallows the error and emits a single `error` notification, so
the method itself always returns normally. -/

/-- One settled per-relay publish result (`Promise.allSettled` entry). -/
inductive SettledResult where
  | fulfilled
  | rejected
deriving DecidableEq

/-- Notifications emitted to observers. -/
inductive EmitAction where
  | emitError (message : String)
deriving DecidableEq

/-- The `try` block of source `publishUpdate`: throw unless at least one
relay acknowledged. -/
def publishUpdateTry (results : List SettledResult) : Except String Unit :=
  if results.any (fun r => r == SettledResult.fulfilled) then Except.ok ()
  else Except.error "All relay publishes failed"

/-- Source `publishUpdate` after the per-relay results settle: the emitted
notifications and the method's own completion (always `ok`, because the
`catch` swallows the failure). -/
def publishUpdateOutcome (results : List SettledResult) :
    List EmitAction × Except String Unit :=
  match publishUpdateTry results with
  | Except.ok _ => ([], Except.ok ())
  | Except.error _ =>
      ([EmitAction.emitError "Failed to publish update"], Except.ok ())

/-! ## `disconnect` step order -/

/-- The discrete steps `disconnect` can perform, in trace form. -/
inductive DAction where
  | closePool
  | cancelTimer
  | flushPending
  | setDisconnected
  | emitDisconnected
deriving DecidableEq

/-- Source `disconnect` as the ordered trace of the steps it performs:
close the relay pool when a subscription is active, then cancel an armed
batch timer, then flush when updates are pending, then clear the connected
flag and emit `disconnected`. -/
def disconnectTrace {V : Type} (st : ProviderState V) : List DAction :=
  (if st.subscriptionId.isSome then [DAction.closePool] else []) ++
  (if st.batchTimer.isSome then [DAction.cancelTimer] else []) ++
  (if st.pendingUpdates.length > 0 then [DAction.flushPending] else []) ++
  [DAction.setDisconnected, DAction.emitDisconnected]

/-! ## Key store (`importKeys` in `store.ts`)

External collaborators are parameters: `nip19decode` models
`nip19.decode` (throwing = `Except.error`), `getPublicKey` models
`nostr-tools`' `getPublicKey` (throwing on key material it rejects).  The
JavaScript string pipeline (`match(/.{1,2}/g)`, `parseInt(byte, 16)`,
`Uint8Array` coercion) is translated exactly. -/

/-- Result of `nip19.decode`: a type tag and raw data bytes. -/
structure Nip19Decoded where
  type : String
  data : List Nat

/-- The stored key pair. -/
structure NostrKeys where
  privateKey : String
  publicKey : String
deriving DecidableEq

/-- JavaScript `s.match(/.{1,2}/g)`: `null` on the empty string, otherwise
the chunks of one or two characters. -/
def jsMatchPairs (s : List Char) : Option (List (List Char)) :=
  match s with
  | [] => none
  | [c] => some [[c]]
  | c1 :: c2 :: rest =>
      match jsMatchPairs rest with
      | some chunks => some ([c1, c2] :: chunks)
      | none => some [[c1, c2]]

/-- Hex digit value, when the character is a hex digit. -/
def hexDigitVal (c : Char) : Option Nat :=
  if 48 ≤ c.toNat ∧ c.toNat ≤ 57 then some (c.toNat - 48)
  else if 97 ≤ c.toNat ∧ c.toNat ≤ 102 then some (c.toNat - 97 + 10)
  else if 65 ≤ c.toNat ∧ c.toNat ≤ 70 then some (c.toNat - 65 + 10)
  else none

/-- JavaScript `parseInt(s, 16)`: strip an optional `0x`/`0X` prefix, read
the maximal hex-digit prefix, `none` models `NaN` when no digit remains. -/
def parseIntHex (s : List Char) : Option Nat :=
  let s1 := match s with
    | '0' :: 'x' :: rest => rest
    | '0' :: 'X' :: rest => rest
    | other => other
  let digits := s1.takeWhile (fun c => (hexDigitVal c).isSome)
  if digits = [] then none
  else some (digits.foldl (fun acc c => acc * 16 + (hexDigitVal c).getD 0) 0)

/-- A `Uint8Array` element write: `NaN` becomes 0, values are reduced
modulo 256. -/
def toUint8 (v : Option Nat) : Nat :=
  v.getD 0 % 256

/-- One byte rendered as two lowercase hex digits
(`b.toString(16).padStart(2, '0')`). -/
def byteToHexPair (b : Nat) : List Char :=
  let digitChar := fun (n : Nat) =>
    if n < 10 then Char.ofNat (48 + n) else Char.ofNat (97 + (n - 10))
  [digitChar (b / 16 % 16), digitChar (b % 16)]

/-- Bytes rendered as a lowercase hex string
(`Array.from(bytes).map(...).join('')`). -/
def bytesToHex (bytes : List Nat) : List Char :=
  bytes.flatMap byteToHexPair

/-- The `try` block of source `importKeys`: resolve an `nsec`-encoded key
to hex (keeping the input string unchanged when the decoded type is not
`nsec`), split the hex string into byte chunks, parse each chunk, and
derive the public key. -/
def importKeysParse (nip19decode : String → Except Unit Nip19Decoded)
    (getPublicKey : List Nat → Except Unit String)
    (privateKey : String) : Except Unit NostrKeys :=
  let nsecStep : Except Unit (List Char) :=
    if privateKey.startsWith "nsec" then
      match nip19decode privateKey with
      | Except.error e => Except.error e
      | Except.ok decoded =>
          if decoded.type = "nsec" then Except.ok (bytesToHex decoded.data)
          else Except.ok privateKey.toList
    else Except.ok privateKey.toList
  match nsecStep with
  | Except.error e => Except.error e
  | Except.ok hexKey =>
      match jsMatchPairs hexKey with
      | none => Except.error ()
      | some chunks =>
          let privateKeyBytes := chunks.map (fun c => toUint8 (parseIntHex c))
          match getPublicKey privateKeyBytes with
          | Except.error e => Except.error e
          | Except.ok publicKey =>
              Except.ok { privateKey := String.mk hexKey,
                          publicKey := publicKey }

/-- Source `importKeys`: on success store the new key pair; on any failure
in the `try` block re-throw `Invalid private key format` to the caller and
leave the stored keys untouched (the store `set` only runs at the end of
the `try` block). -/
def importKeys (nip19decode : String → Except Unit Nip19Decoded)
    (getPublicKey : List Nat → Except Unit String)
    (privateKey : String) (keys : Option NostrKeys) :
    Except String Unit × Option NostrKeys :=
  match importKeysParse nip19decode getPublicKey privateKey with
  | Except.ok newKeys => (Except.ok (), some newKeys)
  | Except.error _ => (Except.error "Invalid private key format", keys)

/-! ## Latency probe and metrics collector -/

/-- Modelled from the spec: the provider's `ping()` / pong handling and the
`MetricsCollector` are not among the available sources (only their consumer,
the debug panel calling `provider.ping()` / `provider.getMetrics()`, is
present).  State per §4.5: pending probe measurements keyed by a unique
identifier with their send time, plus a bounded ring of completed latency
samples; `nextPingId` supplies fresh probe identifiers. -/
structure MetricsState where
  pending : List (Nat × Nat)
  measurements : List Nat
  nextPingId : Nat

/-- Modelled from the spec: append a completed latency sample, keeping only
the newest `cap` samples (the bounded sample history). -/
def recordSample (cap : Nat) (latency : Nat) (ms : List Nat) : List Nat :=
  let ms1 := ms ++ [latency]
  if ms1.length > cap then ms1.drop (ms1.length - cap) else ms1

/-- Modelled from the spec: `ping()` publishes a probe with a fresh unique
identifier and records the pending measurement with its send time; returns
the probe identifier. -/
def pingProbe (now : Nat) (st : MetricsState) : MetricsState × Nat :=
  ({ st with pending := st.pending ++ [(st.nextPingId, now)],
             nextPingId := st.nextPingId + 1 },
   st.nextPingId)

/-- Modelled from the spec: a matching pong (or echoed ping) completes the
pending measurement with that identifier, computing the elapsed time and
recording it in the bounded sample history; a pong with no matching pending
measurement is ignored. -/
def handlePong (cap : Nat) (probeId : Nat) (now : Nat) (st : MetricsState) :
    MetricsState × Option Nat :=
  match st.pending.find? (fun p => p.1 == probeId) with
  | none => (st, none)
  | some p =>
      let latency := now - p.2
      ({ st with pending := st.pending.filter (fun q => q.1 != probeId),
                 measurements := recordSample cap latency st.measurements },
       some latency)

/-- Modelled from the spec: unanswered pings age out of the pending list
without producing any notification and without touching the recorded
samples. -/
def ageOutPings (now ttl : Nat) (st : MetricsState) :
    MetricsState × List EmitAction :=
  ({ st with pending := st.pending.filter (fun p => now - p.2 ≤ ttl) }, [])

/-- Running minimum over the recorded latency samples. -/
def minLatency : List Nat → Option Nat
  | [] => none
  | x :: xs =>
      match minLatency xs with
      | none => some x
      | some m => some (Nat.min x m)

/-- Running maximum over the recorded latency samples. -/
def maxLatency : List Nat → Option Nat
  | [] => none
  | x :: xs =>
      match maxLatency xs with
      | none => some x
      | some m => some (Nat.max x m)

/-- Running average over the recorded latency samples. -/
def avgLatency (ms : List Nat) : Nat :=
  ms.sum / ms.length

/-! ## Lemmas about the base64 codec -/

/-- Decoding a base64 alphabet character recovers its index. -/
theorem b64IndexOf_b64CharOf : ∀ n, n < 64 → b64IndexOf (b64CharOf n) = n := by
  decide

/-- No base64 alphabet character is the padding character. -/
theorem b64CharOf_ne_pad : ∀ n, n < 64 → b64CharOf n ≠ '=' := by
  decide

/-- `atobDecode` inverts `btoaEncode` on lists of 8-bit values. -/
theorem atob_btoa : ∀ (l : List Nat), (∀ b ∈ l, b < 256) →
    atobDecode (btoaEncode l) = l
  | [], _ => rfl
  | [a], h => by
      have ha : a < 256 := h a (by simp)
      have h1 : a / 4 < 64 := by omega
      have h2 : a % 4 * 16 < 64 := by omega
      simp only [btoaEncode, atobDecode, if_true]
      rw [b64IndexOf_b64CharOf _ h1, b64IndexOf_b64CharOf _ h2]
      congr 1
      omega
  | [a, b], h => by
      have ha : a < 256 := h a (by simp)
      have hb : b < 256 := h b (by simp)
      have h1 : a / 4 < 64 := by omega
      have h2 : a % 4 * 16 + b / 16 < 64 := by omega
      have h3 : b % 16 * 4 < 64 := by omega
      simp only [btoaEncode, atobDecode]
      rw [if_neg (b64CharOf_ne_pad _ h3)]
      simp only [if_true]
      rw [b64IndexOf_b64CharOf _ h1, b64IndexOf_b64CharOf _ h2,
          b64IndexOf_b64CharOf _ h3]
      simp only [List.cons.injEq, and_true]
      constructor <;> omega
  | a :: b :: c :: rest, h => by
      have ha : a < 256 := h a (by simp)
      have hb : b < 256 := h b (by simp)
      have hc : c < 256 := h c (by simp)
      have ih := atob_btoa rest (fun x hx => h x (by simp [hx]))
      have h1 : a / 4 < 64 := by omega
      have h2 : a % 4 * 16 + b / 16 < 64 := by omega
      have h3 : b % 16 * 4 + c / 64 < 64 := by omega
      have h4 : c % 64 < 64 := by omega
      simp only [btoaEncode, atobDecode]
      rw [if_neg (b64CharOf_ne_pad _ h3), if_neg (b64CharOf_ne_pad _ h4)]
      rw [b64IndexOf_b64CharOf _ h1, b64IndexOf_b64CharOf _ h2,
          b64IndexOf_b64CharOf _ h3, b64IndexOf_b64CharOf _ h4]
      rw [ih]
      simp only [List.cons.injEq, and_true]
      refine ⟨by omega, by omega, by omega⟩

/-! ## Lemmas about the stable sort and history reconciliation -/

/-- Ascending order on the `created_at` key. -/
def createdLe (a b : NEvent) : Prop :=
  a.createdAt ≤ b.createdAt

theorem insertByCreatedAt_perm (e : NEvent) (l : List NEvent) :
    (insertByCreatedAt e l).Perm (e :: l) := by
  induction l with
  | nil => simp [insertByCreatedAt]
  | cons x xs ih =>
    simp only [insertByCreatedAt]
    by_cases hx : x.createdAt ≤ e.createdAt
    · rw [if_pos hx]
      exact (ih.cons x).trans (List.Perm.swap e x xs)
    · rw [if_neg hx]

theorem foldl_insert_perm (l : List NEvent) :
    ∀ acc : List NEvent,
      (l.foldl (fun a e => insertByCreatedAt e a) acc).Perm (acc ++ l) := by
  induction l with
  | nil => intro acc; simp
  | cons e l ih =>
    intro acc
    simp only [List.foldl_cons]
    refine ((ih (insertByCreatedAt e acc)).trans ?_)
    refine ((insertByCreatedAt_perm e acc).append_right l).trans ?_
    exact List.perm_middle.symm

theorem sortByCreatedAt_perm (l : List NEvent) : (sortByCreatedAt l).Perm l := by
  simpa [sortByCreatedAt] using foldl_insert_perm l []

theorem mem_insertByCreatedAt {y e : NEvent} {l : List NEvent} :
    y ∈ insertByCreatedAt e l ↔ y = e ∨ y ∈ l := by
  simpa using (insertByCreatedAt_perm e l).mem_iff

theorem pairwise_insertByCreatedAt (e : NEvent) (l : List NEvent)
    (h : l.Pairwise createdLe) :
    (insertByCreatedAt e l).Pairwise createdLe := by
  induction l with
  | nil => simp [insertByCreatedAt, createdLe]
  | cons x xs ih =>
    rcases List.pairwise_cons.mp h with ⟨hx, hxs⟩
    simp only [insertByCreatedAt]
    by_cases hc : x.createdAt ≤ e.createdAt
    · rw [if_pos hc]
      refine List.pairwise_cons.mpr ⟨?_, ih hxs⟩
      intro y hy
      rcases mem_insertByCreatedAt.mp hy with rfl | hy
      · exact hc
      · exact hx y hy
    · rw [if_neg hc]
      refine List.pairwise_cons.mpr ⟨?_, h⟩
      intro y hy
      rcases List.mem_cons.mp hy with rfl | hy
      · exact Nat.le_of_not_le hc
      · exact Nat.le_trans (Nat.le_of_not_le hc) (hx y hy)

theorem foldl_insert_pairwise (l : List NEvent) :
    ∀ acc : List NEvent, acc.Pairwise createdLe →
      (l.foldl (fun a e => insertByCreatedAt e a) acc).Pairwise createdLe := by
  induction l with
  | nil => intro acc h; simpa
  | cons e l ih =>
    intro acc h
    simp only [List.foldl_cons]
    exact ih _ (pairwise_insertByCreatedAt e acc h)

theorem sortByCreatedAt_pairwise (l : List NEvent) :
    (sortByCreatedAt l).Pairwise createdLe :=
  foldl_insert_pairwise l [] (by simp)

theorem find_eq_filter_head {α : Type} (p : α → Bool) (l : List α) :
    l.find? p = (l.filter p).head? := by
  induction l with
  | nil => rfl
  | cons x xs ih =>
    cases hx : p x with
    | true =>
        rw [List.find?_cons_of_pos _ hx, List.filter_cons_of_pos hx]
        rfl
    | false =>
        rw [List.find?_cons_of_neg _ (by simp [hx]),
            List.filter_cons_of_neg (by simp [hx]), ih]

/-! ## Sample events used by witnesses and counterexamples -/

/-- A decodable snapshot event at timestamp 100. -/
def sampleSnapshot : NEvent :=
  { kind := NKind.documentSnapshot, pubkey := "p1", createdAt := 100,
    content := some { type := "snapshot", docId := "room",
                      data := [], timestamp := 0 } }

/-- A decodable update event at a given timestamp. -/
def sampleUpd (t : Nat) : NEvent :=
  { kind := NKind.crdtUpdate, pubkey := "p2", createdAt := t,
    content := some { type := "update", docId := "room",
                      data := [], timestamp := 0 } }

/-! ## Claim theorems -/

/-- C1: for every history query result with at most one snapshot event and
any list of update events, in whatever order the query returned them, the
reconciler imports the snapshot (when present) first — regardless of its
timestamp position — and then every update event in ascending `created_at`
order (a permutation of the returned updates, sorted ascending). -/
theorem fetchHistory_snapshot_first_updates_sorted
    (selfPubkey docId : String) (snaps ups : List NEvent)
    (hsnap : snaps = [] ∨ ∃ s, snaps = [s] ∧ s.kind = NKind.documentSnapshot)
    (hups : ∀ e ∈ ups, e.kind = NKind.crdtUpdate) :
    ∃ sortedUps : List NEvent,
      sortedUps.Perm ups ∧ sortedUps.Pairwise createdLe ∧
      fetchHistoryActions selfPubkey docId snaps ups =
        snaps.flatMap (applySnapshotActions docId) ++
        sortedUps.flatMap (applyUpdateActions docId) := by
  have hupf : ups.filter (fun e => e.kind == NKind.crdtUpdate) = ups :=
    List.filter_eq_self.mpr (fun e he => by simp [hups e he])
  have hupf2 : ups.filter (fun e => e.kind == NKind.documentSnapshot) = [] := by
    rw [List.filter_eq_nil_iff]
    intro e he
    simp [hups e he]
  have hperm := sortByCreatedAt_perm (snaps ++ ups)
  refine ⟨(sortByCreatedAt (snaps ++ ups)).filter
      (fun e => e.kind == NKind.crdtUpdate), ?_, ?_, ?_⟩
  · have hp := hperm.filter (fun e => e.kind == NKind.crdtUpdate)
    rw [List.filter_append, hupf] at hp
    rcases hsnap with rfl | ⟨s, rfl, hs⟩
    · simpa using hp
    · have hsf : [s].filter (fun e => e.kind == NKind.crdtUpdate) = [] := by
        rw [List.filter_cons_of_neg (by simp [hs])]
        rfl
      rw [hsf] at hp
      simpa using hp
  · exact (sortByCreatedAt_pairwise _).sublist (List.filter_sublist _)
  · have hpf := hperm.filter (fun e => e.kind == NKind.documentSnapshot)
    rw [List.filter_append, hupf2, List.append_nil] at hpf
    simp only [fetchHistoryActions]
    rw [find_eq_filter_head]
    rcases hsnap with rfl | ⟨s, rfl, hs⟩
    · have hnil : (sortByCreatedAt ([] ++ ups)).filter
          (fun e => e.kind == NKind.documentSnapshot) = [] := hpf.eq_nil
      rw [hnil]
      simp
    · have hsf2 : [s].filter (fun e => e.kind == NKind.documentSnapshot)
          = [s] := by
        rw [List.filter_cons_of_pos (by simp [hs])]
        rfl
      rw [hsf2] at hpf
      have hone : (sortByCreatedAt ([s] ++ ups)).filter
          (fun e => e.kind == NKind.documentSnapshot) = [s] :=
        List.perm_singleton.mp hpf
      rw [hone]
      simp

/-- Witness for C1: a snapshot at timestamp 100 and updates at 90, 105, 120
returned out of order. -/
theorem fetchHistory_snapshot_first_updates_sorted_witness :
    ∃ sortedUps : List NEvent,
      sortedUps.Perm [sampleUpd 105, sampleUpd 120, sampleUpd 90] ∧
      sortedUps.Pairwise createdLe ∧
      fetchHistoryActions "me" "room" [sampleSnapshot]
          [sampleUpd 105, sampleUpd 120, sampleUpd 90] =
        [sampleSnapshot].flatMap (applySnapshotActions "room") ++
        sortedUps.flatMap (applyUpdateActions "room") :=
  fetchHistory_snapshot_first_updates_sorted "me" "room" _ _
    (Or.inr ⟨sampleSnapshot, rfl, rfl⟩) (by decide)

/-- A decodable update event signed by the provider's own key `me`. -/
def sampleOwnUpd : NEvent :=
  { kind := NKind.crdtUpdate, pubkey := "me", createdAt := 10,
    content := some { type := "update", docId := "room",
                      data := [], timestamp := 0 } }

/-- C2 counterexample: an update event whose signer is the provider's own
public key is still dispatched for import on the history-reconciliation
path — `fetchHistory` performs no signer check — so self-echo suppression
does not hold on every dispatch path. -/
theorem fetchHistory_imports_own_event :
    sampleOwnUpd.pubkey = "me" ∧
    fetchHistoryActions "me" "room" [] [sampleOwnUpd] =
      [Action.importDoc []] := by
  constructor
  · rfl
  · rfl

/-- C2 amended: self-echo suppression holds on the live-subscription path —
`handleEvent` dispatches nothing, for every message kind, when the event's
signer equals the provider's own public key — while the
history-reconciliation path applies no signer check at all: its dispatch is
the same whatever public key the provider holds. -/
theorem handleEvent_self_echo_suppressed
    (selfPubkey docId otherPubkey : String) (e : NEvent)
    (snaps ups : List NEvent) (h : e.pubkey = selfPubkey) :
    handleEventActions selfPubkey docId e = [] ∧
    fetchHistoryActions selfPubkey docId snaps ups =
      fetchHistoryActions otherPubkey docId snaps ups := by
  constructor
  · simp [handleEventActions, h]
  · rfl

/-- Witness for C2 amended: the provider's own update event, of each kind,
dispatches nothing through `handleEvent`. -/
theorem handleEvent_self_echo_suppressed_witness :
    handleEventActions "me" "room" sampleOwnUpd = [] ∧
    fetchHistoryActions "me" "room" [] [sampleOwnUpd] =
      fetchHistoryActions "you" "room" [] [sampleOwnUpd] :=
  handleEvent_self_echo_suppressed "me" "room" "you" sampleOwnUpd [] [sampleOwnUpd] rfl

/-- A decodable update event whose envelope names a different document. -/
def mismatchedUpd : NEvent :=
  { kind := NKind.crdtUpdate, pubkey := "p9", createdAt := 5,
    content := some { type := "update", docId := "other",
                      data := [], timestamp := 0 } }

/-- C3 counterexample: an update event whose decoded envelope carries
`docId = "other"` while the engine is bound to `"room1"` is imported all
the same — `applyUpdate` never compares the envelope's `docId` with the
bound document identifier. -/
theorem applyUpdate_mismatched_docId_imported :
    mismatchedUpd.content.map SyncMessage.docId = some "other" ∧
    "other" ≠ "room1" ∧
    applyUpdateActions "room1" mismatchedUpd = [Action.importDoc []] := by
  refine ⟨rfl, by decide, rfl⟩

/-- C3 amended: for every received update or snapshot event whose content
decodes, the payload is imported into the document whatever the envelope's
`docId` field says — the `docId` field is never compared with the engine's
bound document identifier; scoping relies solely on the relay-side `d`-tag
filter. -/
theorem applyUpdate_ignores_docId (docId : String) (e : NEvent)
    (m : SyncMessage) (hc : e.content = some m) (hm : m.docId ≠ docId) :
    applyUpdateActions docId e = [Action.importDoc (base64ToBytes m.data)] ∧
    applySnapshotActions docId e =
      [Action.importDoc (base64ToBytes m.data)] := by
  constructor
  · simp [applyUpdateActions, hc]
  · simp [applySnapshotActions, hc]

/-- Witness for C3 amended: the mismatched event above is imported. -/
theorem applyUpdate_ignores_docId_witness :
    applyUpdateActions "room1" mismatchedUpd =
      [Action.importDoc (base64ToBytes [])] ∧
    applySnapshotActions "room1" mismatchedUpd =
      [Action.importDoc (base64ToBytes [])] :=
  applyUpdate_ignores_docId "room1" mismatchedUpd _ rfl (by decide)

/-- A sample document black box whose delta export is empty. -/
def sampleDoc : DocModel Nat :=
  { exportFrom := fun _ => [], version := 7 }

/-- A sample provider state: subscribed, timer armed, one pending update. -/
def sampleProviderState : ProviderState Nat :=
  { pendingUpdates := [[1, 2]], batchTimer := some 0, nextTimerId := 1,
    lastExportedVersion := none, subscriptionId := some "active",
    isConnected := true }

/-- C4: whenever `flushUpdates` runs and the delta exported since the last
exported version marker is empty, no publish is handed to the relay layer
(this also covers the early return on an empty pending buffer). -/
theorem flushUpdates_empty_delta_no_publish {V : Type}
    (doc : DocModel V) (st : ProviderState V)
    (h : doc.exportFrom st.lastExportedVersion = []) :
    (flushUpdates doc st).2 = [] := by
  unfold flushUpdates
  by_cases hp : st.pendingUpdates = []
  · simp [hp]
  · simp [hp, h]

/-- Witness for C4: a pending buffer with one update but an empty exported
delta publishes nothing. -/
theorem flushUpdates_empty_delta_no_publish_witness :
    sampleDoc.exportFrom sampleProviderState.lastExportedVersion = [] ∧
    (flushUpdates sampleDoc sampleProviderState).2 = [] :=
  ⟨rfl, flushUpdates_empty_delta_no_publish sampleDoc sampleProviderState rfl⟩

/-- C5: publish outcome aggregation over the settled per-relay results: if
at least one relay acknowledged, `publishUpdate` completes successfully and
emits nothing; if every relay rejected, it emits exactly one `error`
notification and still returns normally to its caller (the failure is
swallowed by the catch). -/
theorem publishUpdate_outcome_aggregation (results : List SettledResult) :
    ((∃ r ∈ results, r = SettledResult.fulfilled) →
      publishUpdateOutcome results = ([], Except.ok ())) ∧
    ((∀ r ∈ results, r = SettledResult.rejected) →
      (publishUpdateOutcome results).1 =
        [EmitAction.emitError "Failed to publish update"] ∧
      (publishUpdateOutcome results).2 = Except.ok ()) := by
  constructor
  · rintro ⟨r, hr, rfl⟩
    have hany : results.any (fun r => r == SettledResult.fulfilled) = true :=
      List.any_eq_true.mpr ⟨_, hr, by simp⟩
    simp [publishUpdateOutcome, publishUpdateTry, hany]
  · intro hall
    have hany : results.any (fun r => r == SettledResult.fulfilled) = false := by
      rw [List.any_eq_false]
      intro x hx
      simp [hall x hx]
    simp [publishUpdateOutcome, publishUpdateTry, hany]

/-- Witness for C5: one acknowledging relay out of two succeeds silently;
two rejecting relays produce exactly one error notification and a normal
return. -/
theorem publishUpdate_outcome_aggregation_witness :
    publishUpdateOutcome [SettledResult.rejected, SettledResult.fulfilled] =
      ([], Except.ok ()) ∧
    (publishUpdateOutcome [SettledResult.rejected, SettledResult.rejected]).1 =
      [EmitAction.emitError "Failed to publish update"] ∧
    (publishUpdateOutcome [SettledResult.rejected, SettledResult.rejected]).2 =
      Except.ok () :=
  ⟨(publishUpdate_outcome_aggregation _).1
      ⟨SettledResult.fulfilled, by decide, rfl⟩,
   (publishUpdate_outcome_aggregation _).2 (by decide)⟩

theorem queueUpdates_armed {V : Type} (us : List (List Nat)) :
    ∀ (st : ProviderState V) (t : Nat), st.batchTimer = some t →
      (queueUpdates us st).batchTimer = some t ∧
      (queueUpdates us st).nextTimerId = st.nextTimerId := by
  induction us with
  | nil => intro st t h; exact ⟨h, rfl⟩
  | cons u us ih =>
    intro st t h
    have hstep : (queueUpdate u st).batchTimer = some t ∧
        (queueUpdate u st).nextTimerId = st.nextTimerId := by
      simp [queueUpdate, h]
    have := ih (queueUpdate u st) t hstep.1
    simp only [queueUpdates, List.foldl_cons] at this ⊢
    exact ⟨this.1, this.2.trans hstep.2⟩

/-- C6: batch-timer debounce.  An enqueue under an armed timer leaves the
very same timer handle armed and creates no new timer; a non-empty burst of
enqueues starting with no armed timer creates exactly one timer — the one
armed by the first enqueue — however many updates the burst contains, so at
most one flush (the expiry of that single timer) fires per armed window. -/
theorem queueUpdate_single_timer_per_window {V : Type}
    (st : ProviderState V) (u : List Nat) (us : List (List Nat)) (t : Nat) :
    (st.batchTimer = some t →
      (queueUpdate u st).batchTimer = some t ∧
      (queueUpdate u st).nextTimerId = st.nextTimerId) ∧
    (st.batchTimer = none → us ≠ [] →
      (queueUpdates us st).batchTimer = some st.nextTimerId ∧
      (queueUpdates us st).nextTimerId = st.nextTimerId + 1) := by
  constructor
  · intro h
    simp [queueUpdate, h]
  · intro h hne
    match us with
    | [] => exact absurd rfl hne
    | u1 :: us1 =>
      have hstep : (queueUpdate u1 st).batchTimer = some st.nextTimerId ∧
          (queueUpdate u1 st).nextTimerId = st.nextTimerId + 1 := by
        simp [queueUpdate, h]
      have := queueUpdates_armed us1 (queueUpdate u1 st) st.nextTimerId hstep.1
      simp only [queueUpdates, List.foldl_cons] at this ⊢
      exact ⟨this.1, this.2.trans hstep.2⟩

/-- Witness for C6: with the timer armed as handle 0, a further enqueue
keeps handle 0 and creates nothing; from an unarmed state a burst of three
enqueues arms exactly one timer. -/
theorem queueUpdate_single_timer_per_window_witness :
    ((queueUpdate [9] sampleProviderState).batchTimer = some 0 ∧
      (queueUpdate [9] sampleProviderState).nextTimerId = 1) ∧
    ((queueUpdates [[1], [2], [3]]
        { sampleProviderState with batchTimer := none }).batchTimer =
        some 1 ∧
      (queueUpdates [[1], [2], [3]]
        { sampleProviderState with batchTimer := none }).nextTimerId = 2) :=
  ⟨(queueUpdate_single_timer_per_window sampleProviderState [9] [] 0).1 rfl,
   (queueUpdate_single_timer_per_window
      { sampleProviderState with batchTimer := none } [9]
      [[1], [2], [3]] 0).2 rfl (by decide)⟩

/-- C7 counterexample: with an active subscription, an armed batch timer
and pending updates, `disconnect` closes the relay pool as its first step
— before cancelling the timer and flushing — not after them as the claim
states. -/
theorem disconnect_closes_pool_before_flush :
    disconnectTrace sampleProviderState =
      [DAction.closePool, DAction.cancelTimer, DAction.flushPending,
       DAction.setDisconnected, DAction.emitDisconnected] ∧
    (disconnectTrace sampleProviderState).indexOf DAction.closePool <
      (disconnectTrace sampleProviderState).indexOf DAction.flushPending := by
  constructor
  · rfl
  · decide

/-- C7 amended: `disconnect` performs its steps in this order: it closes
the relay session manager first (when a subscription is active), then
cancels any armed batch timer, then flushes pending updates (when any are
pending), and finally transitions to the disconnected state and emits the
`disconnected` notification as the last two steps. -/
theorem disconnect_step_order {V : Type} (st : ProviderState V) :
    (disconnectTrace st).Sublist
      [DAction.closePool, DAction.cancelTimer, DAction.flushPending,
       DAction.setDisconnected, DAction.emitDisconnected] ∧
    (disconnectTrace st).getLast? = some DAction.emitDisconnected ∧
    (disconnectTrace st).dropLast.getLast? = some DAction.setDisconnected := by
  by_cases h1 : st.subscriptionId.isSome <;>
    by_cases h2 : st.batchTimer.isSome <;>
      by_cases h3 : st.pendingUpdates.length > 0 <;>
        simp [disconnectTrace, h1, h2, h3] <;> decide

theorem find_append_of_none {α : Type} (p : α → Bool) (l1 l2 : List α)
    (h : l1.filter p = []) : (l1 ++ l2).find? p = l2.find? p := by
  rw [find_eq_filter_head, find_eq_filter_head, List.filter_append, h,
      List.nil_append]

theorem recordSample_length_le (cap lat : Nat) (ms : List Nat)
    (h : ms.length ≤ cap) (hc : 0 < cap) :
    (recordSample cap lat ms).length ≤ cap := by
  unfold recordSample
  by_cases hlen : (ms ++ [lat]).length > cap
  · rw [if_pos hlen]
    simp only [List.length_drop, List.length_append, List.length_cons,
      List.length_nil]
    omega
  · rw [if_neg hlen]
    omega

theorem minLatency_le {m : Nat} : ∀ {ms : List Nat}, m ∈ ms →
    (minLatency ms).getD 0 ≤ m := by
  intro ms
  induction ms with
  | nil => intro h; cases h
  | cons x xs ih =>
    intro h
    rcases List.mem_cons.mp h with rfl | hm
    · cases hx : minLatency xs <;> simp [minLatency, hx, Nat.min_le_left]
    · cases hx : minLatency xs with
      | none =>
        cases xs with
        | nil => cases hm
        | cons y ys =>
          cases hmy : minLatency ys <;> simp [minLatency, hmy] at hx
      | some mm =>
        have := ih hm
        rw [hx] at this
        simp only [minLatency, hx, Option.getD_some]
        exact Nat.le_trans (Nat.min_le_right x mm) this

theorem le_maxLatency {m : Nat} : ∀ {ms : List Nat}, m ∈ ms →
    m ≤ (maxLatency ms).getD 0 := by
  intro ms
  induction ms with
  | nil => intro h; cases h
  | cons x xs ih =>
    intro h
    rcases List.mem_cons.mp h with rfl | hm
    · cases hx : maxLatency xs <;> simp [maxLatency, hx, Nat.le_max_left]
    · cases hx : maxLatency xs with
      | none =>
        cases xs with
        | nil => cases hm
        | cons y ys =>
          cases hmy : maxLatency ys <;> simp [maxLatency, hmy] at hx
      | some mm =>
        have := ih hm
        rw [hx] at this
        simp only [maxLatency, hx, Option.getD_some]
        exact Nat.le_trans this (Nat.le_max_right x mm)

/-- C8: latency probe.  `ping()` records a pending measurement under a
fresh probe identifier (no existing pending measurement uses it); a pong
matching that identifier completes the measurement, computing the elapsed
time `t2 - t1` and recording it in the bounded sample history — which stays
within its bound and whose running minimum and maximum bracket every
recorded sample — while an age-out pass over unanswered pings emits no
notification and leaves the recorded samples untouched. -/
theorem ping_pong_metrics (cap t1 t2 ttl now : Nat) (st : MetricsState)
    (hfresh : ∀ p ∈ st.pending, p.1 < st.nextPingId)
    (hcap : 0 < cap) (hbound : st.measurements.length ≤ cap) :
    (∀ p ∈ st.pending, p.1 ≠ (pingProbe t1 st).2) ∧
    (pingProbe t1 st).1.pending =
      st.pending ++ [((pingProbe t1 st).2, t1)] ∧
    (handlePong cap (pingProbe t1 st).2 t2 (pingProbe t1 st).1).2 =
      some (t2 - t1) ∧
    (handlePong cap (pingProbe t1 st).2 t2 (pingProbe t1 st).1).1.measurements =
      recordSample cap (t2 - t1) st.measurements ∧
    (handlePong cap (pingProbe t1 st).2 t2
        (pingProbe t1 st).1).1.measurements.length ≤ cap ∧
    (∀ m ∈ (handlePong cap (pingProbe t1 st).2 t2
        (pingProbe t1 st).1).1.measurements,
      (minLatency (handlePong cap (pingProbe t1 st).2 t2
          (pingProbe t1 st).1).1.measurements).getD 0 ≤ m ∧
      m ≤ (maxLatency (handlePong cap (pingProbe t1 st).2 t2
          (pingProbe t1 st).1).1.measurements).getD 0) ∧
    (ageOutPings now ttl st).2 = [] ∧
    (ageOutPings now ttl st).1.measurements = st.measurements := by
  have hid : (pingProbe t1 st).2 = st.nextPingId := rfl
  have hfilter : st.pending.filter
      (fun p => p.1 == st.nextPingId) = [] := by
    rw [List.filter_eq_nil_iff]
    intro p hp
    have := hfresh p hp
    simp only [beq_iff_eq]
    omega
  have hfind : (pingProbe t1 st).1.pending.find?
      (fun p => p.1 == st.nextPingId) = some (st.nextPingId, t1) := by
    show (st.pending ++ [(st.nextPingId, t1)]).find?
      (fun p => p.1 == st.nextPingId) = some (st.nextPingId, t1)
    rw [find_append_of_none _ _ _ hfilter]
    simp
  have hpong : handlePong cap (pingProbe t1 st).2 t2 (pingProbe t1 st).1 =
      ({ (pingProbe t1 st).1 with
          pending := (pingProbe t1 st).1.pending.filter
            (fun q => q.1 != st.nextPingId),
          measurements :=
            recordSample cap (t2 - t1) st.measurements }, some (t2 - t1)) := by
    rw [hid]
    unfold handlePong
    rw [hfind]
    rfl
  refine ⟨?_, rfl, ?_, ?_, ?_, ?_, rfl, rfl⟩
  · intro p hp
    have := hfresh p hp
    rw [hid]
    omega
  · rw [hpong]
  · rw [hpong]
  · rw [hpong]
    exact recordSample_length_le cap (t2 - t1) st.measurements hbound hcap
  · intro m hm
    exact ⟨minLatency_le hm, le_maxLatency hm⟩

/-- Witness for C8: from an empty metrics state, ping at time 10 and pong
at time 25 record a 15ms sample; an age-out pass emits nothing. -/
theorem ping_pong_metrics_witness :
    (handlePong 3 (pingProbe 10 (⟨[], [], 0⟩ : MetricsState)).2 25
        (pingProbe 10 (⟨[], [], 0⟩ : MetricsState)).1).2 = some (25 - 10) ∧
    (ageOutPings 100 30 (⟨[], [], 0⟩ : MetricsState)).2 = [] := by
  have h := ping_pong_metrics 3 10 25 30 100 ⟨[], [], 0⟩
    (by simp) (by decide) (by decide)
  exact ⟨h.2.2.1, h.2.2.2.2.2.2.1⟩

/-- A `nip19.decode` stand-in that rejects every input. -/
def failDecode : String → Except Unit Nip19Decoded :=
  fun _ => Except.error ()

/-- A `getPublicKey` stand-in that rejects every key. -/
def failPubkey : List Nat → Except Unit String :=
  fun _ => Except.error ()

/-- C9: key-format failure is fatal but atomic — whenever the decode
pipeline of `importKeys` fails on the supplied string (for any behaviour of
the external `nip19.decode` and `getPublicKey` collaborators), the caller
receives the `Invalid private key format` error and the stored key state is
returned unchanged: no partial key material is written. -/
theorem importKeys_error_atomic
    (nip19decode : String → Except Unit Nip19Decoded)
    (getPublicKey : List Nat → Except Unit String)
    (s : String) (keys : Option NostrKeys)
    (h : importKeysParse nip19decode getPublicKey s = Except.error ()) :
    importKeys nip19decode getPublicKey s keys =
      (Except.error "Invalid private key format", keys) := by
  simp [importKeys, h]

/-- Witness for C9: the empty input string (whose `match(/.{1,2}/g)` is
`null`) fails and leaves the previously stored keys in place. -/
theorem importKeys_error_atomic_witness :
    importKeys failDecode failPubkey ""
        (some { privateKey := "aa", publicKey := "bb" }) =
      (Except.error "Invalid private key format",
        some { privateKey := "aa", publicKey := "bb" }) :=
  importKeys_error_atomic failDecode failPubkey "" _ rfl

/-- C10: codec round trip — decoding the text produced by encoding any
byte array returns it exactly: `base64ToBytes (bytesToBase64 b) = b`. -/
theorem base64_roundtrip (l : List Nat) (h : ∀ b ∈ l, b < 256) :
    base64ToBytes (bytesToBase64 l) = l :=
  atob_btoa l h

/-- Witness for C10: a seven-byte array (exercising both a full chunk and a
padded final chunk) survives the round trip. -/
theorem base64_roundtrip_witness :
    (∀ b ∈ ([76, 111, 114, 111, 0, 255, 7] : List Nat), b < 256) ∧
    base64ToBytes (bytesToBase64 [76, 111, 114, 111, 0, 255, 7]) =
      [76, 111, 114, 111, 0, 255, 7] :=
  ⟨by decide, base64_roundtrip _ (by decide)⟩

end LoroNostr
